import Mathlib

/-!
Verification of the pik-laskutin billing engine (`src/pik`) against its
natural-language specification.

Shallow embedding notes:
* Python `Decimal` arithmetic on monetary amounts and durations is exact for
  the operations the rules perform (`+`, `-`, `*`, `/ 60` on terminating
  decimals), so amounts and durations are modelled as rationals (`ℚ`).
* Calendar dates are modelled as naturals ordered in calendar order.
* The classes `AccountEntry`, `BillingContext` and `Invoice` live in
  `pik/billing.py`, which is not among the sources; they are modelled from the
  spec (see the doc comments below).
* Mutation of the shared billing context is modelled by explicit state
  passing: every stateful operation returns the updated context.
-/

/-- Aircraft model: only the registration is relevant to the rules
(`event.aircraft.registration`, rules.py line 132 and 351). -/
structure Aircraft where
  registration : String
deriving DecidableEq

/-- Flight event. Fields used by the rules in `rules.py`: `account_id`,
`date`, `aircraft`, `duration` (minutes), `purpose`, `transfer_tow`,
`invoicing_comment` (spec §3, "Event (sum type)"). -/
structure Flight where
  account_id : String
  date : Nat
  aircraft : Aircraft
  duration : ℚ
  purpose : String
  transfer_tow : Bool
  invoicing_comment : Option String
deriving DecidableEq

/-- Modelled from the spec: `SimpleEvent` lives in `pik/event.py`, which is
not among the sources. Spec §3: fields `account_id`, `date`, `item`,
`amount`, `ledger_account_id`, `ledger_year`, `rollup`. -/
structure SimpleEvent where
  account_id : String
  date : Nat
  item : String
  amount : ℚ
  ledger_account_id : Option Int
  ledger_year : Option Int
  rollup : Bool
deriving DecidableEq

/-- Event sum type (spec §3): a `Flight` or a `SimpleEvent`. -/
inductive Event where
  | flight (f : Flight)
  | simple (s : SimpleEvent)
deriving DecidableEq

/-- Common `account_id` accessor of both event variants. -/
def eventAccountId : Event → String
  | .flight f => f.account_id
  | .simple s => s.account_id

/-- Python class name of an event, as used by `validate_events`
(`event.__class__.__name__`, validation.py line 31). -/
def eventTypeName : Event → String
  | .flight _ => "Flight"
  | .simple _ => "SimpleEvent"

/-- Modelled from the spec: `AccountEntry` (the spec's `ChargeLine`) lives in
`pik/billing.py`, which is not among the sources. Spec §3: fields
`account_id`, `date`, `description`, `amount`, `source_event`,
`ledger_account_id`, `ledger_year`, `rollup`; the `item` attribute written by
`MinimumDurationRule` is the same description field. The `rule_ref`
back-reference is omitted (no claim mentions it). -/
structure AccountEntry where
  account_id : String
  date : Nat
  description : String
  amount : ℚ
  source_event : Event
  ledger_account_id : Option Int
  ledger_year : Option Int
  rollup : Bool
deriving DecidableEq

/-- Modelled from the spec: `BillingContext` lives in `pik/billing.py`, which
is not among the sources. Spec §3: a two-level mapping
`(account_id, variable_id) → value`, read with default 0 (spec §4.2,
CappedRule: "read `acc = ctx[line.account_id, varId]` (default 0)").
Values stored by `SetDateRule` (ISO date strings) are modelled through the
numeric embedding of dates. -/
def BillingContext := String → String → ℚ

/-- Context read with default 0 (spec §3 / §4.2). -/
def BillingContext.get (c : BillingContext) (a v : String) : ℚ := c a v

/-- Context write (spec §3: mutated in place by rules; modelled
functionally). -/
def BillingContext.set (c : BillingContext) (a v : String) (x : ℚ) : BillingContext :=
  fun a' v' => if a' = a ∧ v' = v then x else c a' v'

/-- Empty context: every variable of every account reads as 0. -/
def emptyContext : BillingContext := fun _ _ => 0

theorem BillingContext.get_set_self (c : BillingContext) (a v : String) (x : ℚ) :
    (c.set a v x).get a v = x := by
  simp [BillingContext.get, BillingContext.set]

theorem BillingContext.get_set (c : BillingContext) (a v a' v' : String) (x : ℚ) :
    (c.set a v x).get a' v' = if a' = a ∧ v' = v then x else c.get a' v' := by
  simp [BillingContext.get, BillingContext.set]

/-! ## CappedRule (rules.py lines 409-469) -/

/-- Configuration fields of `CappedRule.__init__` (rules.py lines 420-432),
minus the inner rule and context, which are passed explicitly. -/
structure CappedCfg where
  variable_id : String
  cap_price : ℚ
  drop_over_cap : Bool
  cap_description : String
deriving DecidableEq

/-- Tail of `CappedRule._filter_lines`'s loop body after the over-cap
zero-rewrite (rules.py lines 457-468): first `context.set` with the current
line's amount, the `ctx_val + line.amount > self.cap_price` rewrite, and the
second `context.set`. `ctx_val` is the value read at the top of the loop.
The rewritten entry is a fresh `AccountEntry` built from `account_id`,
`date`, `description`, `amount`, `source_event`, `ledger_account_id` only
(rules.py lines 460-467), so `ledger_year`/`rollup` take their defaults. -/
def cappedAccumulate (r : CappedCfg) (ctx : BillingContext) (ctx_val : ℚ)
    (line : AccountEntry) : AccountEntry × BillingContext :=
  let ctx1 := ctx.set line.account_id r.variable_id (ctx_val + line.amount)
  let line2 :=
    if r.cap_price < ctx_val + line.amount then
      { line with description := line.description ++ ", " ++ r.cap_description,
                  amount := r.cap_price - ctx_val,
                  ledger_year := none, rollup := false }
    else line
  (line2, ctx1.set line2.account_id r.variable_id (ctx_val + line2.amount))

/-- One iteration of `CappedRule._filter_lines` (rules.py lines 439-469):
read `ctx_val`; if at or over the cap either drop the line
(`drop_over_cap`) or rewrite it to amount 0 with the cap description
appended; then run the accumulation tail. `none` models `continue`. -/
def cappedProcessLine (r : CappedCfg) (ctx : BillingContext) (line : AccountEntry) :
    Option AccountEntry × BillingContext :=
  let ctx_val := ctx.get line.account_id r.variable_id
  if r.cap_price ≤ ctx_val then
    if r.drop_over_cap then (none, ctx)
    else
      let zeroed : AccountEntry :=
        { line with description := line.description ++ ", " ++ r.cap_description,
                    amount := 0, ledger_year := none, rollup := false }
      let res := cappedAccumulate r ctx ctx_val zeroed
      (some res.1, res.2)
  else
    let res := cappedAccumulate r ctx ctx_val line
    (some res.1, res.2)

/-- `CappedRule._filter_lines` (rules.py lines 438-469) over a whole line
list, threading the context. -/
def cappedFilterLines (r : CappedCfg) : BillingContext → List AccountEntry →
    List AccountEntry × BillingContext
  | ctx, [] => ([], ctx)
  | ctx, l :: ls =>
    let step := cappedProcessLine r ctx l
    let rest := cappedFilterLines r step.2 ls
    (step.1.elim rest.1 (fun l' => l' :: rest.1), rest.2)

/-- `CappedRule.invoice` (rules.py lines 434-436) for a stateless inner
rule: apply the inner rule, then filter its lines. -/
def cappedInvoice (r : CappedCfg) (inner : Event → List AccountEntry)
    (e : Event) (ctx : BillingContext) : List AccountEntry × BillingContext :=
  cappedFilterLines r ctx (inner e)

/-! ## Scenario inputs for the CappedRule claims -/

/-- Source event used for concrete scenario lines (its content is irrelevant
to the capping logic). -/
def sampleEvent : Event := .simple ⟨"a", 1, "x", 0, none, none, false⟩

/-- One 40.00 charge line for account "a", as produced by the inner rule in
scenario S4. -/
def s4line : AccountEntry :=
  ⟨"a", 1, "lento", 40, sampleEvent, some 3220, none, false⟩

/-- Scenario S4 cap configuration: cap 90.00 on variable "k2024",
`drop_over_cap = False` (the default, rules.py line 420). -/
def s4cfg : CappedCfg := ⟨"k2024", 90, false, "rajattu hintakattoon"⟩

/-- Inner rule of scenario S4: every flight produces one 40.00 line. -/
def s4inner : Event → List AccountEntry := fun _ => [s4line]

/-- Flight fed three times in scenario S4. -/
def s4event : Event := .flight ⟨"a", 1, ⟨"650"⟩, 60, "TIL", false, none⟩

/-- C1: three successive `CappedRule.invoice` calls on an inner rule that
produces a 40.00 line each time, starting from the empty context with cap
90.00, emit amounts 40.00, 40.00 and 10.00 in that order; the third line is
rewritten with ", " and the cap description appended; afterwards the context
value for account "a" and variable "k2024" equals 90.00. -/
theorem c1_cappedRule_s4_accumulation :
    (cappedInvoice s4cfg s4inner s4event emptyContext).1.map
        AccountEntry.amount = [40] ∧
    (cappedInvoice s4cfg s4inner s4event
        (cappedInvoice s4cfg s4inner s4event emptyContext).2).1.map
        AccountEntry.amount = [40] ∧
    (cappedInvoice s4cfg s4inner s4event
        (cappedInvoice s4cfg s4inner s4event
          (cappedInvoice s4cfg s4inner s4event emptyContext).2).2).1.map
        AccountEntry.amount = [10] ∧
    (cappedInvoice s4cfg s4inner s4event emptyContext).1.map
        AccountEntry.description = ["lento"] ∧
    (cappedInvoice s4cfg s4inner s4event
        (cappedInvoice s4cfg s4inner s4event emptyContext).2).1.map
        AccountEntry.description = ["lento"] ∧
    (cappedInvoice s4cfg s4inner s4event
        (cappedInvoice s4cfg s4inner s4event
          (cappedInvoice s4cfg s4inner s4event emptyContext).2).2).1.map
        AccountEntry.description = ["lento" ++ ", " ++ "rajattu hintakattoon"] ∧
    (cappedInvoice s4cfg s4inner s4event
        (cappedInvoice s4cfg s4inner s4event
          (cappedInvoice s4cfg s4inner s4event emptyContext).2).2).2.get
        "a" "k2024" = 90 := by
  norm_num [cappedInvoice, cappedFilterLines, cappedProcessLine, cappedAccumulate,
    BillingContext.get, BillingContext.set, emptyContext, s4line, s4cfg, s4inner]

/-- Line used in the C2 counterexample: a non-negative 40.00 inner line. -/
def c2line : AccountEntry :=
  ⟨"a", 1, "lento", 40, sampleEvent, some 3220, none, false⟩

/-- Context in which the accumulator is already strictly above the cap 90. -/
def c2ctx : BillingContext := emptyContext.set "a" "k" 100

/-- C2 counterexample: with a non-negative cap (90), a non-negative inner
line (40.00) and the accumulator already strictly above the cap (100),
`_filter_lines` with `drop_over_cap = False` emits a line of amount −10:
the over-cap branch rewrites the line to amount 0, and the subsequent
`ctx_val + line.amount > cap` rewrite (rules.py line 458) then sets the
amount to `cap − ctx_val = 90 − 100`. -/
theorem c2_counterexample_negative_line :
    ((cappedFilterLines ⟨"k", 90, false, "capped"⟩ c2ctx [c2line]).1.map
        AccountEntry.amount = [-10]) ∧
    ¬ (∀ l ∈ (cappedFilterLines ⟨"k", 90, false, "capped"⟩ c2ctx [c2line]).1,
        0 ≤ l.amount) := by
  norm_num [cappedFilterLines, cappedProcessLine, cappedAccumulate,
    BillingContext.get, BillingContext.set, emptyContext, c2ctx, c2line]

/-- Single step of the C2 invariant: if every accumulator value for the
rule's variable is at most the cap and the incoming line's amount is
non-negative, then the line emitted by one iteration of `_filter_lines` (if
any) has non-negative amount and all accumulator values stay at most the
cap. -/
theorem cappedProcessLine_nonneg (r : CappedCfg) (ctx : BillingContext)
    (l : AccountEntry) (hl : 0 ≤ l.amount)
    (hctx : ∀ a, ctx.get a r.variable_id ≤ r.cap_price) :
    (∀ l', (cappedProcessLine r ctx l).1 = some l' → 0 ≤ l'.amount) ∧
    (∀ a, ((cappedProcessLine r ctx l).2).get a r.variable_id ≤ r.cap_price) := by
  have hcv := hctx l.account_id
  constructor
  · intro l' hsome
    simp only [cappedProcessLine, cappedAccumulate] at hsome
    split_ifs at hsome
    all_goals (try simp at hsome)
    all_goals (try subst hsome)
    all_goals (try simp)
    all_goals linarith
  · intro a
    simp only [cappedProcessLine, cappedAccumulate]
    split_ifs
    all_goals simp only [BillingContext.get_set]
    all_goals (try exact hctx a)
    all_goals (split_ifs <;> linarith [hctx a])

/-- List version of the C2 invariant, by induction along `_filter_lines`. -/
theorem cappedFilterLines_nonneg (r : CappedCfg) (ls : List AccountEntry) :
    ∀ ctx : BillingContext, (∀ l ∈ ls, 0 ≤ l.amount) →
    (∀ a, ctx.get a r.variable_id ≤ r.cap_price) →
    (∀ l' ∈ (cappedFilterLines r ctx ls).1, 0 ≤ l'.amount) ∧
    (∀ a, ((cappedFilterLines r ctx ls).2).get a r.variable_id ≤ r.cap_price) := by
  induction ls with
  | nil => intro ctx _ hctx; exact ⟨fun l' h => by simp [cappedFilterLines] at h, hctx⟩
  | cons l ls ih =>
    intro ctx hls hctx
    have hstep := cappedProcessLine_nonneg r ctx l (hls l (by simp)) hctx
    have hrec := ih (cappedProcessLine r ctx l).2
      (fun x hx => hls x (List.mem_cons_of_mem _ hx))
      hstep.2
    constructor
    · intro l' hl'
      simp only [cappedFilterLines] at hl'
      rcases ho : (cappedProcessLine r ctx l).1 with _ | lout
      · rw [ho] at hl'
        simp only [Option.elim] at hl'
        exact hrec.1 l' hl'
      · rw [ho] at hl'
        simp only [Option.elim, List.mem_cons] at hl'
        rcases hl' with h | h
        · subst h; exact hstep.1 l' ho
        · exact hrec.1 l' h
    · intro a
      simp only [cappedFilterLines]
      exact hrec.2 a

/-- C2 (amended): for every configuration (either `drop_over_cap` mode),
every line sequence of non-negative amounts and every starting context whose
accumulator values for the rule's variable are all at most the cap, every
line emitted by `_filter_lines` has non-negative amount, and afterwards all
accumulator values are still at most the cap. (As originally stated — with
the accumulator allowed to start strictly above the cap — the claim is
refuted by `c2_counterexample_negative_line`.) -/
theorem c2_capped_lines_nonneg (r : CappedCfg) (ctx : BillingContext)
    (ls : List AccountEntry) (hls : ∀ l ∈ ls, 0 ≤ l.amount)
    (hctx : ∀ a, ctx.get a r.variable_id ≤ r.cap_price) :
    (∀ l' ∈ (cappedFilterLines r ctx ls).1, 0 ≤ l'.amount) ∧
    (∀ a, ((cappedFilterLines r ctx ls).2).get a r.variable_id ≤ r.cap_price) :=
  cappedFilterLines_nonneg r ls ctx hls hctx

/-- Witness for `c2_capped_lines_nonneg` at cap 90, the empty context and a
single 40.00 line. -/
theorem c2_capped_lines_nonneg_witness :
    (∀ l' ∈ (cappedFilterLines ⟨"k", 90, false, "capped"⟩ emptyContext
        [c2line]).1, 0 ≤ l'.amount) ∧
    (∀ a, ((cappedFilterLines ⟨"k", 90, false, "capped"⟩ emptyContext
        [c2line]).2).get a "k" ≤ 90) :=
  c2_capped_lines_nonneg ⟨"k", 90, false, "capped"⟩ emptyContext [c2line]
    (by intro l hl; simp only [List.mem_singleton] at hl; subst hl; norm_num [c2line])
    (by intro a; norm_num [emptyContext, BillingContext.get])

/-- C3: at-cap replay. If the context value for the line's account and the
rule's variable already equals the cap, then one more 40.00 inner line is
dropped when `drop_over_cap` is true and rewritten to amount 0.00 when it is
false, and in both modes every context value (in particular the one for that
account and variable) is unchanged after the call. -/
theorem c3_capped_at_cap_replay (c : BillingContext)
    (a v cd descr : String) (q : ℚ) (d : Nat) (se : Event)
    (la ly : Option Int) (ro : Bool) :
    let ctx := c.set a v q
    let l : AccountEntry := ⟨a, d, descr, 40, se, la, ly, ro⟩
    cappedFilterLines ⟨v, q, true, cd⟩ ctx [l] = ([], ctx) ∧
    ((cappedFilterLines ⟨v, q, false, cd⟩ ctx [l]).1.map AccountEntry.amount
      = [0]) ∧
    (∀ a' v', ((cappedFilterLines ⟨v, q, false, cd⟩ ctx [l]).2).get a' v'
      = ctx.get a' v') ∧
    (∀ a' v', ((cappedFilterLines ⟨v, q, true, cd⟩ ctx [l]).2).get a' v'
      = ctx.get a' v') := by
  intro ctx l
  have hread : ctx.get a v = q := BillingContext.get_set_self c a v q
  have hle : (⟨v, q, true, cd⟩ : CappedCfg).cap_price ≤ ctx.get a v := by
    rw [hread]
  refine ⟨?_, ?_, ?_, ?_⟩
  · simp [cappedFilterLines, cappedProcessLine, hread]
  · simp [cappedFilterLines, cappedProcessLine, cappedAccumulate, hread]
  · intro a' v'
    simp [cappedFilterLines, cappedProcessLine, cappedAccumulate, hread]
    simp only [BillingContext.get_set]
    split_ifs with h
    · rw [h.1, h.2, hread]
    · rfl
  · intro a' v'
    simp [cappedFilterLines, cappedProcessLine, hread]

/-! ## Filters and FlightRule (rules.py lines 123-139, 167-172, 315-368) -/

/-- `AircraftFilter` (rules.py lines 123-139): the flight's aircraft
registration is one of the given registrations. -/
def aircraftFilter (regs : List String) : Flight → Bool :=
  fun f => regs.contains f.aircraft.registration

/-- `TransferTowFilter` (rules.py lines 167-172): `bool(event.transfer_tow)`. -/
def transferTowFilter : Flight → Bool := fun f => f.transfer_tow

/-- Numeric-price branch of `FlightRule.__init__` (rules.py lines 327-329):
`(Decimal(str(event.duration)) * price) / Decimal('60')`. The operands are
terminating decimals, so `Decimal` arithmetic here is exact and agrees with
`ℚ` arithmetic. -/
def hourlyPricing (price : ℚ) : Flight → ℚ :=
  fun ev => ev.duration * price / 60

/-- Python `int()` truncation toward zero used by the `%d` template
conversion (`"%(duration)d"`); `Int.div` is the matching T-division. -/
def pyToInt (q : ℚ) : Int := q.num.tdiv (q.den : Int)

/-- Configuration of `FlightRule.__init__` (rules.py lines 320-334). The
description template (Python `self.template % context`, rules.py line 354)
is modelled as a function of the flight, with the enumerated substitutions
the spec allows (spec §9, "Template interpolation"). -/
structure FlightRuleCfg where
  pricing : Flight → ℚ
  ledger_account_id : Option Int
  filters : List (Flight → Bool)
  template : Flight → String

/-- `FlightRule.invoice` (rules.py lines 336-368): for a `Flight` passing
every filter, emit one entry with the templated description, the priced
amount, the rule's ledger account, and the event as source; otherwise
nothing. -/
def flightRuleInvoice (r : FlightRuleCfg) : Event → List AccountEntry
  | .flight f =>
    if r.filters.all (fun flt => flt f) then
      [⟨f.account_id, f.date, r.template f, r.pricing f, .flight f,
        r.ledger_account_id, none, false⟩]
    else []
  | .simple _ => []

/-! ## MinimumDurationRule (rules.py lines 272-313) -/

/-- Exception raised by an inner rule's pricing function (spec §4.6:
"Pricing-function exceptions MUST propagate"). -/
inductive PricingError where
  | err
deriving DecidableEq

/-- Configuration of `MinimumDurationRule.__init__` (rules.py lines
276-286). -/
structure MinDurCfg where
  aircraft_filters : List (Flight → Bool)
  min_duration : ℚ
  min_duration_text : Option String

/-- Suffix append of `MinimumDurationRule.invoice` (rules.py line 310):
`line.item = line.item + " " + self.min_duration_text`. -/
def appendText (t : String) (l : AccountEntry) : AccountEntry :=
  { l with description := l.description ++ " " ++ t }

/-- `MinimumDurationRule.invoice` on a `Flight` (rules.py lines 288-312),
with an inner rule that may raise (`Except`): store the original duration,
decide whether the minimum applies, temporarily overwrite `event.duration`,
invoke the inner rule, restore the duration, and append the text. The pair's
second component is the event as the caller sees it afterwards; when the
inner rule raises, the restore statement on line 305 is never reached, so
the returned event keeps the overwritten duration. -/
def minimumDurationInvoiceF (cfg : MinDurCfg)
    (inner : Flight → Except PricingError (List AccountEntry))
    (f : Flight) : Except PricingError (List AccountEntry) × Flight :=
  let applies := (cfg.aircraft_filters.any fun flt => flt f) &&
    !f.transfer_tow && decide (f.duration < cfg.min_duration)
  let f1 := if applies then { f with duration := cfg.min_duration } else f
  match inner f1 with
  | .error e => (.error e, f1)
  | .ok lines =>
    let f2 := { f1 with duration := f.duration }
    let lines2 :=
      match cfg.min_duration_text with
      | some t => if applies && !lines.isEmpty then lines.map (appendText t) else lines
      | none => lines
    (.ok lines2, f2)

/-! ## Scenario S2 inputs (C4, C5) -/

/-- S2 flight: aircraft "TOW", duration 10 minutes, not a transfer tow. -/
def s2flight : Flight := ⟨"1001", 1, ⟨"TOW"⟩, 10, "TIL", false, none⟩

/-- S2 inner rule: `FlightRule(122, 3130, [AircraftFilter("TOW")],
"T, %(duration)d")`. -/
def s2inner : FlightRuleCfg :=
  ⟨hourlyPricing 122, some 3130, [aircraftFilter ["TOW"]],
    fun f => "T, " ++ toString (pyToInt f.duration)⟩

/-- S2 wrapper configuration: `[AircraftFilter("TOW")], 15, "(min 15)"`. -/
def s2mdcfg : MinDurCfg := ⟨[aircraftFilter ["TOW"]], 15, some "(min 15)"⟩

/-- C4: the claim says `duration` equals its pre-call value for every
caller, including when the inner rule's pricing function raises. The code
has no try/finally: evaluated at the S2 flight (duration 10, minimum 15)
with an inner rule that raises, the exception propagates but the caller is
left with `duration = 15`, not the pre-call 10. -/
theorem c4_minimumDuration_raise_leaves_duration_modified :
    (minimumDurationInvoiceF s2mdcfg (fun _ => .error .err) s2flight).1
      = .error .err ∧
    (minimumDurationInvoiceF s2mdcfg (fun _ => .error .err) s2flight).2.duration
      = 15 ∧
    s2flight.duration = 10 := by
  refine ⟨rfl, ?_, rfl⟩
  norm_num [minimumDurationInvoiceF, s2mdcfg, s2flight, aircraftFilter]

/-- C5: scenario S2. The S2 flight (TOW, 10 min) wrapped in
`MinimumDurationRule(FlightRule(122, 3130, [AircraftFilter("TOW")],
"T, %(duration)d"), [AircraftFilter("TOW")], 15, "(min 15)")` yields exactly
one line with amount 122 × 15/60 = 30.50 and description "T, 15 (min 15)",
and afterwards the event's duration is 10 again. -/
theorem c5_minimumDuration_s2_pricing :
    ((minimumDurationInvoiceF s2mdcfg
        (fun f => .ok (flightRuleInvoice s2inner (.flight f))) s2flight).1.map
      (List.map fun l => (l.account_id, l.amount, l.description)))
      = .ok [("1001", (61 : ℚ)/2, "T, 15 (min 15)")] ∧
    (minimumDurationInvoiceF s2mdcfg
        (fun f => .ok (flightRuleInvoice s2inner (.flight f))) s2flight).2
      = s2flight := by
  constructor
  · norm_num [minimumDurationInvoiceF, s2mdcfg, s2flight, s2inner,
      aircraftFilter, flightRuleInvoice, hourlyPricing, appendText, pyToInt,
      Except.map]
    decide
  · norm_num [minimumDurationInvoiceF, s2mdcfg, s2flight, s2inner,
      aircraftFilter, flightRuleInvoice, hourlyPricing]

/-! ## FirstRule (rules.py lines 392-407) -/

/-- `FirstRule.invoice` (rules.py lines 402-407) over inner rules given as
functions: evaluate the rules in order and return the lines of the first
rule whose result is non-empty; if all results are empty, return `[]`. -/
def firstRuleInvoice : List (Event → List AccountEntry) → Event → List AccountEntry
  | [], _ => []
  | r :: rs, e =>
    let lines := r e
    if lines.isEmpty then firstRuleInvoice rs e else lines

/-- Instrumented version of `FirstRule.invoice`: also counts how many inner
rules were evaluated before the loop returned. -/
def firstRuleInvoiceCount : List (Event → List AccountEntry) → Event →
    List AccountEntry × Nat
  | [], _ => ([], 0)
  | r :: rs, e =>
    let lines := r e
    if lines.isEmpty then
      let rest := firstRuleInvoiceCount rs e
      (rest.1, rest.2 + 1)
    else (lines, 1)

/-- Characterization of `FirstRule`: the result is the first non-empty
inner result (default `[]`), and exactly the rules up to and including the
first one with a non-empty result are evaluated. -/
theorem firstRule_char (rules : List (Event → List AccountEntry)) (e : Event) :
    firstRuleInvoice rules e
      = ((rules.map (fun r => r e)).find? (fun ls => !ls.isEmpty)).getD [] ∧
    (firstRuleInvoiceCount rules e).1 = firstRuleInvoice rules e ∧
    (firstRuleInvoiceCount rules e).2
      = min ((rules.map (fun r => r e)).findIdx (fun ls => !ls.isEmpty) + 1)
          rules.length := by
  induction rules with
  | nil => simp [firstRuleInvoice, firstRuleInvoiceCount]
  | cons r rs ih =>
    by_cases h : (r e).isEmpty
    · refine ⟨?_, ?_, ?_⟩
      · simp [firstRuleInvoice, h, List.find?_cons_of_neg, ih.1]
      · simp [firstRuleInvoice, firstRuleInvoiceCount, h, ih.2.1, ih.1]
      · simp only [firstRuleInvoiceCount, h, if_true, List.map_cons,
          List.findIdx_cons, List.length_cons, ih.2.2]
        simp [h, Nat.succ_min_succ]
    · refine ⟨?_, ?_, ?_⟩
      · simp [firstRuleInvoice, h, List.find?_cons_of_pos]
      · simp [firstRuleInvoice, firstRuleInvoiceCount, h]
      · simp [firstRuleInvoiceCount, h, List.findIdx_cons]

/-- S3 first alternative: `FlightRule(p1, _, [TransferTow()])`. -/
def s3r1 (p1 : ℚ) : FlightRuleCfg :=
  ⟨hourlyPricing p1, some 3100, [transferTowFilter], fun _ => "tow"⟩

/-- S3 second alternative: `FlightRule(p2, _, [])`. -/
def s3r2 (p2 : ℚ) : FlightRuleCfg :=
  ⟨hourlyPricing p2, some 3200, [], fun _ => "flight"⟩

/-- S3 flight with the given `transfer_tow` flag (duration 60 minutes, so
the hourly price is the line amount). -/
def s3flight (tt : Bool) : Flight := ⟨"1001", 1, ⟨"650"⟩, 60, "TIL", tt, none⟩

/-- C6: `FirstRule` returns the lines of the first inner rule whose result
is non-empty (`[]` when all results are empty, also for no rules), and
evaluates exactly the rules up to and including that one. Scenario S3: with
inner rules `[FlightRule(p1, _, [TransferTow()]), FlightRule(p2, _, [])]`, a
transfer-tow flight yields exactly the first rule's single line (amount p1
for a 60-minute flight) and a non-transfer-tow flight yields exactly the
second rule's single line (amount p2). -/
theorem c6_firstRule_order_and_s3 :
    (∀ (rules : List (Event → List AccountEntry)) (e : Event),
      firstRuleInvoice rules e
        = ((rules.map (fun r => r e)).find? (fun ls => !ls.isEmpty)).getD [] ∧
      (firstRuleInvoiceCount rules e).1 = firstRuleInvoice rules e ∧
      (firstRuleInvoiceCount rules e).2
        = min ((rules.map (fun r => r e)).findIdx (fun ls => !ls.isEmpty) + 1)
            rules.length) ∧
    (∀ p1 p2 : ℚ,
      firstRuleInvoice [flightRuleInvoice (s3r1 p1), flightRuleInvoice (s3r2 p2)]
          (.flight (s3flight true))
        = flightRuleInvoice (s3r1 p1) (.flight (s3flight true)) ∧
      (flightRuleInvoice (s3r1 p1) (.flight (s3flight true))).map
          AccountEntry.amount = [p1] ∧
      flightRuleInvoice (s3r1 p1) (.flight (s3flight false)) = [] ∧
      firstRuleInvoice [flightRuleInvoice (s3r1 p1), flightRuleInvoice (s3r2 p2)]
          (.flight (s3flight false))
        = flightRuleInvoice (s3r2 p2) (.flight (s3flight false)) ∧
      (flightRuleInvoice (s3r2 p2) (.flight (s3flight false))).map
          AccountEntry.amount = [p2]) := by
  constructor
  · exact firstRule_char
  · intro p1 p2
    refine ⟨?_, ?_, ?_, ?_, ?_⟩
    · simp [firstRuleInvoice, flightRuleInvoice, s3r1, s3flight, transferTowFilter]
    · simp [flightRuleInvoice, s3r1, s3flight, transferTowFilter, hourlyPricing]
    · simp [flightRuleInvoice, s3r1, s3flight, transferTowFilter]
    · simp [firstRuleInvoice, flightRuleInvoice, s3r1, s3r2, s3flight, transferTowFilter]
    · simp [flightRuleInvoice, s3r2, s3flight, hourlyPricing]

/-! ## The rule tree (rules.py) as an AST with a state-passing evaluator -/

/-- `SimpleRule.invoice` (rules.py lines 46-54): for a `SimpleEvent` passing
every filter, emit one entry carrying the event's item, amount, ledger
account, ledger year and rollup flag; otherwise nothing. -/
def simpleRuleInvoice (filters : List (SimpleEvent → Bool)) : Event → List AccountEntry
  | .simple ev =>
    if filters.all (fun flt => flt ev) then
      [⟨ev.account_id, ev.date, ev.item, ev.amount, .simple ev,
        ev.ledger_account_id, ev.ledger_year, ev.rollup⟩]
    else []
  | .flight _ => []

/-- Per-line stamp of `SetLedgerYearRule.invoice` (rules.py lines 496-498):
write the configured year iff `ledger_year` is `None`. -/
def stampLine (y : Int) (l : AccountEntry) : AccountEntry :=
  if l.ledger_year = none then { l with ledger_year := some y } else l

/-- `SetLedgerYearRule.invoice`'s loop over the inner lines (rules.py lines
494-499). -/
def stampLines (y : Int) (ls : List AccountEntry) : List AccountEntry :=
  ls.map (stampLine y)

/-- `SetDateRule.invoice`'s loop (rules.py lines 480-484): store each line's
date (ISO string in the source; dates are modelled numerically) under the
line's account and the rule's variable. -/
def setDates (v : String) (ls : List AccountEntry) (ctx : BillingContext) :
    BillingContext :=
  ls.foldl (fun c l => c.set l.account_id v (l.date : ℚ)) ctx

/-- The rule combinators of rules.py as a tree: `SimpleRule`, `FlightRule`,
`AllRules`, `FirstRule`, `MinimumDurationRule`, `CappedRule`,
`SetLedgerYearRule`, `SetDateRule` and the transparent `DebugRule`. The
shared mutable billing context of `CappedRule`/`SetDateRule` is threaded by
the evaluator below. -/
inductive Rule where
  | simpleR (filters : List (SimpleEvent → Bool))
  | flightR (cfg : FlightRuleCfg)
  | allR (inner : List Rule)
  | firstR (inner : List Rule)
  | minDurR (aircraft_filters : List (Flight → Bool)) (min_duration : ℚ)
      (min_duration_text : Option String) (inner : Rule)
  | cappedR (variable_id : String) (cap_price : ℚ) (drop_over_cap : Bool)
      (cap_description : String) (inner : Rule)
  | setLedgerYearR (inner : Rule) (ledger_year : Int)
  | setDateR (variable_id : String) (inner : Rule)
  | debugR (inner : Rule)

mutual

/-- `invoice` of each rule class (rules.py): dispatch on the rule tree,
threading the billing context. Leaf rules do not touch the context;
`MinimumDurationRule` passes the duration-clamped flight to its inner rule
and appends its text (rules.py lines 288-313); `CappedRule` filters the
inner lines through `_filter_lines` (lines 434-436); `SetLedgerYearRule`
stamps (lines 494-499); `SetDateRule` records dates (lines 480-484);
`DebugRule` is transparent (lines 26-31). -/
def Rule.invoice : Rule → Event → BillingContext → List AccountEntry × BillingContext
  | .simpleR fs, e, ctx => (simpleRuleInvoice fs e, ctx)
  | .flightR cfg, e, ctx => (flightRuleInvoice cfg e, ctx)
  | .allR rs, e, ctx => invoiceAll rs e ctx
  | .firstR rs, e, ctx => invoiceFirst rs e ctx
  | .minDurR af md text inner, e, ctx =>
    match e with
    | .flight f =>
      let applies := (af.any fun flt => flt f) && !f.transfer_tow &&
        decide (f.duration < md)
      let f1 := if applies then { f with duration := md } else f
      let res := Rule.invoice inner (.flight f1) ctx
      let lines2 :=
        match text with
        | some t => if applies && !res.1.isEmpty then res.1.map (appendText t)
                    else res.1
        | none => res.1
      (lines2, res.2)
    | .simple _ => Rule.invoice inner e ctx
  | .cappedR v cap drop cd inner, e, ctx =>
    let res := Rule.invoice inner e ctx
    cappedFilterLines ⟨v, cap, drop, cd⟩ res.2 res.1
  | .setLedgerYearR inner y, e, ctx =>
    let res := Rule.invoice inner e ctx
    (stampLines y res.1, res.2)
  | .setDateR v inner, e, ctx =>
    let res := Rule.invoice inner e ctx
    (res.1, setDates v res.1 res.2)
  | .debugR inner, e, ctx => Rule.invoice inner e ctx

/-- `AllRules.invoice` (rules.py lines 380-390): apply all inner rules in
order and concatenate their lines. -/
def invoiceAll : List Rule → Event → BillingContext → List AccountEntry × BillingContext
  | [], _, ctx => ([], ctx)
  | r :: rs, e, ctx =>
    let res := Rule.invoice r e ctx
    let rest := invoiceAll rs e res.2
    (res.1 ++ rest.1, rest.2)

/-- `FirstRule.invoice` (rules.py lines 402-407) over the rule tree. -/
def invoiceFirst : List Rule → Event → BillingContext → List AccountEntry × BillingContext
  | [], _, ctx => ([], ctx)
  | r :: rs, e, ctx =>
    let res := Rule.invoice r e ctx
    if res.1.isEmpty then invoiceFirst rs e res.2 else res

end

/-- Stamping an already-stamped line is a no-op. -/
theorem stampLine_stampLine (y : Int) (l : AccountEntry) :
    stampLine y (stampLine y l) = stampLine y l := by
  unfold stampLine
  rcases h : l.ledger_year with _ | z <;> simp [h]

/-- `SetLedgerYearRule`'s stamping pass is idempotent. -/
theorem stampLines_idem (y : Int) (ls : List AccountEntry) :
    stampLines y (stampLines y ls) = stampLines y ls := by
  simp [stampLines, List.map_map, Function.comp, stampLine_stampLine]

/-- C9: `SetLedgerYearRule` stamps the configured year onto exactly the
lines whose `ledger_year` is null and leaves already-stamped lines
unchanged; consequently wrapping an inner rule in `SetLedgerYearRule(·, y)`
twice produces the same output (lines and context) as wrapping it once. -/
theorem c9_setLedgerYear_idempotent :
    (∀ (r : Rule) (y : Int) (e : Event) (ctx : BillingContext),
      Rule.invoice (.setLedgerYearR (.setLedgerYearR r y) y) e ctx
        = Rule.invoice (.setLedgerYearR r y) e ctx) ∧
    (∀ (y z : Int) (l : AccountEntry),
      stampLine y { l with ledger_year := some z }
        = { l with ledger_year := some z }) ∧
    (∀ (y : Int) (l : AccountEntry),
      stampLine y { l with ledger_year := none }
        = { l with ledger_year := some y }) := by
  refine ⟨?_, ?_, ?_⟩
  · intro r y e ctx
    simp [Rule.invoice, stampLines_idem]
  · intro y z l
    simp [stampLine]
  · intro y l
    simp [stampLine]

/-! ## Invoice assembly (processor.py lines 36-46) -/

/-- Modelled from the spec: `Invoice` lives in `pik/billing.py`, which is
not among the sources. Spec §3: fields `account_id`, `invoice_date` and the
ordered list of lines. -/
structure Invoice where
  account_id : String
  invoice_date : Nat
  lines : List AccountEntry
deriving DecidableEq

/-- Python's ascending string comparison used by `sorted(by_account.keys())`
(processor.py line 44): lexicographic on code points, which is Lean's
`String` order. -/
def strLe : String → String → Bool := fun a b => decide (a ≤ b)

/-- Python's ascending date comparison used by
`sorted(by_account[account], key=lambda line: line.date)` (processor.py
line 45). -/
def dateLe : AccountEntry → AccountEntry → Bool :=
  fun l1 l2 => decide (l1.date ≤ l2.date)

/-- `grouped_lines` + `events_to_invoices`'s assembly loop (processor.py
lines 36-46): partition the lines by `account_id` (insertion order within a
partition), then for each account in ascending order build an `Invoice`
with the partition sorted by date. Python's `sorted` is a stable sort,
modelled by `List.mergeSort`. -/
def linesToInvoices (lines : List AccountEntry) (d : Nat) : List Invoice :=
  (((lines.map (fun l => l.account_id)).dedup).mergeSort strLe).map
    (fun a => ⟨a, d,
      (lines.filter (fun l => decide (l.account_id = a))).mergeSort dateLe⟩)

theorem strLe_trans : ∀ (a b c : String), strLe a b → strLe b c → strLe a c := by
  intro a b c hab hbc
  simp only [strLe, decide_eq_true_eq] at *
  exact le_trans hab hbc

theorem strLe_total : ∀ (a b : String), strLe a b || strLe b a := by
  intro a b
  simp only [strLe, Bool.or_eq_true, decide_eq_true_eq]
  exact le_total a b

theorem dateLe_trans : ∀ (a b c : AccountEntry), dateLe a b → dateLe b c → dateLe a c := by
  intro a b c hab hbc
  simp only [dateLe, decide_eq_true_eq] at *
  omega

theorem dateLe_total : ∀ (a b : AccountEntry), dateLe a b || dateLe b a := by
  intro a b
  simp only [dateLe, Bool.or_eq_true, decide_eq_true_eq]
  omega

/-- C7: the assembler emits invoices in strictly ascending `account_id`
order, with exactly the accounts occurring among the lines; each invoice
carries the given invoice date and a permutation of its account's lines
sorted by date ascending; and the sort is stable: for every date, the
sub-sequence of lines of that date equals the corresponding sub-sequence in
emission order. -/
theorem c7_invoice_assembly (lines : List AccountEntry) (d : Nat) :
    List.Sorted (· < ·) ((linesToInvoices lines d).map Invoice.account_id) ∧
    (∀ a : String, a ∈ (linesToInvoices lines d).map Invoice.account_id ↔
      a ∈ lines.map AccountEntry.account_id) ∧
    (∀ inv ∈ linesToInvoices lines d,
      inv.invoice_date = d ∧
      inv.lines.Perm (lines.filter (fun l => decide (l.account_id = inv.account_id))) ∧
      List.Sorted (fun l1 l2 : AccountEntry => l1.date ≤ l2.date) inv.lines ∧
      (∀ dd : Nat, inv.lines.filter (fun l => decide (l.date = dd))
        = (lines.filter (fun l => decide (l.account_id = inv.account_id))).filter
            (fun l => decide (l.date = dd)))) := by
  refine ⟨?_, ?_, ?_⟩
  · have hmap : (linesToInvoices lines d).map Invoice.account_id
        = ((lines.map (fun l => l.account_id)).dedup).mergeSort strLe := by
      simp [linesToInvoices, List.map_map, Function.comp_def]
    rw [hmap]
    have h1 := List.sorted_mergeSort strLe_trans strLe_total
      ((lines.map (fun l => l.account_id)).dedup)
    have h2 : (((lines.map (fun l => l.account_id)).dedup).mergeSort strLe).Nodup :=
      (List.mergeSort_perm _ _).nodup_iff.mpr (List.nodup_dedup _)
    have h3 := h1.and h2
    exact h3.imp (fun h => lt_of_le_of_ne (of_decide_eq_true h.1) h.2)
  · intro a
    simp [linesToInvoices, List.map_map, Function.comp]
  · intro inv hinv
    simp only [linesToInvoices, List.mem_map, List.mem_mergeSort,
      List.mem_dedup] at hinv
    obtain ⟨a, _, rfl⟩ := hinv
    refine ⟨rfl, ?_, ?_, ?_⟩
    · exact List.mergeSort_perm _ _
    · have h1 := List.sorted_mergeSort dateLe_trans dateLe_total
        (lines.filter (fun l => decide (l.account_id = a)))
      exact h1.imp (fun h => by simpa [dateLe] using h)
    · intro dd
      set P := lines.filter (fun l => decide (l.account_id = a)) with hP
      set ys := P.filter (fun l => decide (l.date = dd)) with hys
      have hsub : List.Sublist ys P := List.filter_sublist _
      have hpw : ys.Pairwise (fun l1 l2 => dateLe l1 l2 = true) := by
        apply List.pairwise_of_forall_mem_list
        intro x hx y hy
        have hxd : x.date = dd := by
          have := List.of_mem_filter hx
          simpa using this
        have hyd : y.date = dd := by
          have := List.of_mem_filter hy
          simpa using this
        simp [dateLe, hxd, hyd]
      have hsub2 : List.Sublist ys (P.mergeSort dateLe) :=
        List.sublist_mergeSort dateLe_trans dateLe_total hpw hsub
      have hfil : ys.filter (fun l => decide (l.date = dd)) = ys := by
        rw [List.filter_eq_self]
        intro x hx
        have := List.of_mem_filter hx
        simpa using this
      have hsub3 : List.Sublist ys
          ((P.mergeSort dateLe).filter (fun l => decide (l.date = dd))) := by
        have := hsub2.filter (fun l => decide (l.date = dd))
        rwa [hfil] at this
      have hperm : List.Perm
          ((P.mergeSort dateLe).filter (fun l => decide (l.date = dd))) ys :=
        (List.mergeSort_perm P dateLe).filter _
      exact (hsub3.eq_of_length hperm.length_eq.symm).symm

/-- Line of the C7 witness scenario: one 12.00 line for account "b". -/
def w7line : AccountEntry :=
  ⟨"b", 3, "lento", 12, sampleEvent, some 3220, none, false⟩

/-- Witness for `c7_invoice_assembly`: with the single line `w7line` the
assembler yields one invoice whose membership facts are discharged
concretely. -/
theorem c7_invoice_assembly_witness :
    ((⟨"b", 5, [w7line]⟩ : Invoice).invoice_date = 5 ∧
      (⟨"b", 5, [w7line]⟩ : Invoice).lines.Perm
        ([w7line].filter (fun l => decide (l.account_id = "b"))) ∧
      List.Sorted (fun l1 l2 : AccountEntry => l1.date ≤ l2.date)
        (⟨"b", 5, [w7line]⟩ : Invoice).lines ∧
      (∀ dd : Nat,
        (⟨"b", 5, [w7line]⟩ : Invoice).lines.filter (fun l => decide (l.date = dd))
          = ([w7line].filter (fun l => decide (l.account_id = "b"))).filter
              (fun l => decide (l.date = dd)))) :=
  (c7_invoice_assembly [w7line] 5).2.2 ⟨"b", 5, [w7line]⟩
    (by simp [linesToInvoices, w7line])

/-! ## Engine driver (processor.py lines 14-34) and validator (validation.py) -/

/-- `events_to_lines` (processor.py lines 14-34): for each event in order,
skip it when its upper-cased account id starts with a configured
no-invoicing marker, otherwise collect the lines of every top-level rule
(threading the shared context); the unmatched-event branch only logs. -/
def eventsToLines : List Event → List Rule → List String → BillingContext →
    List AccountEntry × BillingContext
  | [], _, _, ctx => ([], ctx)
  | e :: es, rules, noInv, ctx =>
    if noInv.any (fun p => (eventAccountId e).toUpper.startsWith p) then
      eventsToLines es rules noInv ctx
    else
      let res := invoiceAll rules e ctx
      let rest := eventsToLines es rules noInv res.2
      (res.1 ++ rest.1, rest.2)

/-- Validity test of `make_event_validator` (validation.py lines 8-16): the
account id is in the known set with length 4 or 6 characters, or it is in
the external set (the configured `no_invoicing` list). The
raise/except of the source is modelled as this boolean. -/
def eventValidator (ids ext : List String) (e : Event) : Bool :=
  (ids.contains (eventAccountId e) &&
    ((eventAccountId e).length == 4 || (eventAccountId e).length == 6)) ||
  ext.contains (eventAccountId e)

/-- `invalid_counts[event_type] += 1` (validation.py line 32). -/
def bumpCount (f : String → Nat) (k : String) : String → Nat :=
  fun t => if t = k then f t + 1 else f t

/-- `invalid_totals[event_type] += Decimal(str(event.amount))`
(validation.py line 35). -/
def addTotal (f : String → ℚ) (k : String) (q : ℚ) : String → ℚ :=
  fun t => if t = k then f t + q else f t

/-- `validate_events` (validation.py lines 18-39): count each invalid event
under its class name and, for invalid `SimpleEvent`s, add the amount to the
per-type total; the events themselves are not touched. The two defaultdicts
are modelled as total functions defaulting to 0. -/
def validateEvents (ids ext : List String) : List Event → (String → Nat) × (String → ℚ)
  | [] => (fun _ => 0, fun _ => 0)
  | e :: es =>
    let rest := validateEvents ids ext es
    if eventValidator ids ext e then rest
    else
      match e with
      | .simple s =>
        (bumpCount rest.1 (eventTypeName e), addTotal rest.2 (eventTypeName e) s.amount)
      | .flight _ => (bumpCount rest.1 (eventTypeName e), rest.2)

/-- Amount contributed to the invalid totals: a `SimpleEvent`'s amount;
flights contribute nothing (validation.py lines 33-37). -/
def eventAmountOrZero : Event → ℚ
  | .simple s => s.amount
  | .flight _ => 0

/-- `process_billing` (processor.py lines 82-102), restricted to the part
the claims touch: validation produces only a report, and the invoices are
computed from the unfiltered event list. -/
def processBilling (ids noInv : List String) (events : List Event)
    (rules : List Rule) (d : Nat) (ctx : BillingContext) :
    ((String → Nat) × (String → ℚ)) × List Invoice :=
  let report := validateEvents ids noInv events
  (report, linesToInvoices (eventsToLines events rules noInv ctx).1 d)

/-- Count characterization of `validate_events`: each event type's invalid
count is the number of invalid events of that type. -/
theorem validateEvents_counts (ids ext : List String) (t : String) :
    ∀ events : List Event,
      (validateEvents ids ext events).1 t
        = (events.filter (fun e => !eventValidator ids ext e &&
            (eventTypeName e == t))).length := by
  intro events
  induction events with
  | nil => simp [validateEvents]
  | cons e es ih =>
    by_cases hv : eventValidator ids ext e
    · simp [validateEvents, hv, ih]
    · by_cases ht : t = eventTypeName e
      · subst ht
        cases e with
        | flight f => simp [validateEvents, hv, bumpCount, ih]
        | simple s => simp [validateEvents, hv, bumpCount, ih]
      · cases e with
        | flight f =>
          simp [validateEvents, hv, bumpCount, ih, ht, Ne.symm ht]
        | simple s =>
          simp [validateEvents, hv, bumpCount, ih, ht, Ne.symm ht]

/-- Total characterization of `validate_events`: each event type's invalid
total is the sum of the amounts of the invalid `SimpleEvent`s of that type
(flights contribute nothing). -/
theorem validateEvents_totals (ids ext : List String) (t : String) :
    ∀ events : List Event,
      (validateEvents ids ext events).2 t
        = ((events.filter (fun e => !eventValidator ids ext e &&
            (eventTypeName e == t))).map eventAmountOrZero).sum := by
  intro events
  induction events with
  | nil => simp [validateEvents]
  | cons e es ih =>
    by_cases hv : eventValidator ids ext e
    · simp [validateEvents, hv, ih]
    · by_cases ht : t = eventTypeName e
      · subst ht
        cases e with
        | flight f =>
          simp [validateEvents, hv, addTotal, eventAmountOrZero, ih]
        | simple s =>
          simp [validateEvents, hv, addTotal, eventAmountOrZero, ih, add_comm]
      · cases e with
        | flight f => simp [validateEvents, hv, addTotal, ih, ht, Ne.symm ht]
        | simple s => simp [validateEvents, hv, addTotal, ih, ht, Ne.symm ht]

/-- C8: an event is valid iff its account id is in the known set with
length 4 or 6, or in the external set; invalid events are counted per
variant name and, for `SimpleEvent`s, their amounts summed per type; and
the validator's report has no influence on the invoices: the engine
processes the unfiltered event list. -/
theorem c8_validator_classification :
    (∀ (ids ext : List String) (e : Event),
      eventValidator ids ext e = true ↔
        ((eventAccountId e ∈ ids ∧
          ((eventAccountId e).length = 4 ∨ (eventAccountId e).length = 6)) ∨
         eventAccountId e ∈ ext)) ∧
    (∀ (ids ext : List String) (events : List Event) (t : String),
      (validateEvents ids ext events).1 t
        = (events.filter (fun e => !eventValidator ids ext e &&
            (eventTypeName e == t))).length ∧
      (validateEvents ids ext events).2 t
        = ((events.filter (fun e => !eventValidator ids ext e &&
            (eventTypeName e == t))).map eventAmountOrZero).sum) ∧
    (∀ (ids noInv : List String) (events : List Event) (rules : List Rule)
        (d : Nat) (ctx : BillingContext),
      (processBilling ids noInv events rules d ctx).2
        = linesToInvoices (eventsToLines events rules noInv ctx).1 d) := by
  refine ⟨?_, ?_, ?_⟩
  · intro ids ext e
    simp [eventValidator]
  · intro ids ext events t
    exact ⟨validateEvents_counts ids ext t events, validateEvents_totals ids ext t events⟩
  · intro ids noInv events rules d ctx
    rfl

/-! ## C10: account attribution -/

/-- A line passed through one `_filter_lines` iteration keeps its
`account_id` and `source_event` (the rewrites copy both, rules.py lines
449-456 and 460-467). -/
theorem cappedProcessLine_fields (cfg : CappedCfg) (ctx : BillingContext)
    (l lout : AccountEntry) (h : (cappedProcessLine cfg ctx l).1 = some lout) :
    lout.account_id = l.account_id ∧ lout.source_event = l.source_event := by
  simp only [cappedProcessLine, cappedAccumulate] at h
  split_ifs at h
  all_goals (try simp at h)
  all_goals (subst h; exact ⟨rfl, rfl⟩)

/-- Every line emitted by `_filter_lines` stems from an input line with the
same `account_id` and `source_event`. -/
theorem cappedFilterLines_fields (cfg : CappedCfg) (ls : List AccountEntry) :
    ∀ (ctx : BillingContext), ∀ l' ∈ (cappedFilterLines cfg ctx ls).1,
      ∃ l ∈ ls, l'.account_id = l.account_id ∧ l'.source_event = l.source_event := by
  induction ls with
  | nil => intro ctx l' h; simp [cappedFilterLines] at h
  | cons l ls ih =>
    intro ctx l' h
    simp only [cappedFilterLines] at h
    rcases ho : (cappedProcessLine cfg ctx l).1 with _ | lout
    · rw [ho] at h
      simp only [Option.elim] at h
      obtain ⟨x, hx, hfields⟩ := ih _ l' h
      exact ⟨x, List.mem_cons_of_mem _ hx, hfields⟩
    · rw [ho] at h
      simp only [Option.elim, List.mem_cons] at h
      rcases h with h | h
      · subst h
        exact ⟨l, List.mem_cons_self _ _, cappedProcessLine_fields cfg ctx l l' ho⟩
      · obtain ⟨x, hx, hfields⟩ := ih _ l' h
        exact ⟨x, List.mem_cons_of_mem _ hx, hfields⟩

/-- The `SetLedgerYearRule` stamp keeps `account_id` and `source_event`. -/
theorem stampLine_fields (y : Int) (l : AccountEntry) :
    (stampLine y l).account_id = l.account_id ∧
    (stampLine y l).source_event = l.source_event := by
  unfold stampLine
  split_ifs <;> exact ⟨rfl, rfl⟩

mutual

/-- Every line emitted by any rule for an event carries the event's
account id, which is also its source event's account id. -/
theorem invoiceAccountAux : ∀ (r : Rule) (e : Event) (ctx : BillingContext),
    ∀ l ∈ (Rule.invoice r e ctx).1,
      l.account_id = eventAccountId e ∧
      l.account_id = eventAccountId l.source_event
  | .simpleR fs, e, ctx => by
    intro l hl
    simp only [Rule.invoice] at hl
    cases e with
    | simple ev =>
      simp only [simpleRuleInvoice] at hl
      split_ifs at hl with h
      · simp only [List.mem_singleton] at hl
        subst hl
        exact ⟨rfl, rfl⟩
      · simp at hl
    | flight f => simp [simpleRuleInvoice] at hl
  | .flightR cfg, e, ctx => by
    intro l hl
    simp only [Rule.invoice] at hl
    cases e with
    | simple ev => simp [flightRuleInvoice] at hl
    | flight f =>
      simp only [flightRuleInvoice] at hl
      split_ifs at hl with h
      · simp only [List.mem_singleton] at hl
        subst hl
        exact ⟨rfl, rfl⟩
      · simp at hl
  | .allR rs, e, ctx => by
    intro l hl
    simp only [Rule.invoice] at hl
    exact invoiceAllAccountAux rs e ctx l hl
  | .firstR rs, e, ctx => by
    intro l hl
    simp only [Rule.invoice] at hl
    exact invoiceFirstAccountAux rs e ctx l hl
  | .minDurR af md text inner, e, ctx => by
    intro l hl
    cases e with
    | simple s =>
      simp only [Rule.invoice] at hl
      exact invoiceAccountAux inner (.simple s) ctx l hl
    | flight f =>
      simp only [Rule.invoice] at hl
      rcases text with _ | t
      all_goals split_ifs at hl
      all_goals
        first
          | (simp only [List.mem_map] at hl
             obtain ⟨x, hx, rfl⟩ := hl
             have := invoiceAccountAux inner _ ctx x hx
             exact ⟨by simpa [eventAccountId, appendText] using this.1,
               by simpa [appendText] using this.2⟩)
          | (exact ⟨by simpa [eventAccountId] using
               (invoiceAccountAux inner _ ctx l hl).1,
               (invoiceAccountAux inner _ ctx l hl).2⟩)
  | .cappedR v cap drop cd inner, e, ctx => by
    intro l hl
    simp only [Rule.invoice] at hl
    obtain ⟨x, hx, h1, h2⟩ := cappedFilterLines_fields ⟨v, cap, drop, cd⟩ _ _ l hl
    have := invoiceAccountAux inner e ctx x hx
    exact ⟨h1.trans this.1, by rw [h1, h2]; exact this.2⟩
  | .setLedgerYearR inner y, e, ctx => by
    intro l hl
    simp only [Rule.invoice, stampLines, List.mem_map] at hl
    obtain ⟨x, hx, rfl⟩ := hl
    have hf := stampLine_fields y x
    have := invoiceAccountAux inner e ctx x hx
    exact ⟨hf.1.trans this.1, by rw [hf.1, hf.2]; exact this.2⟩
  | .setDateR v inner, e, ctx => by
    intro l hl
    simp only [Rule.invoice] at hl
    exact invoiceAccountAux inner e ctx l hl
  | .debugR inner, e, ctx => by
    intro l hl
    simp only [Rule.invoice] at hl
    exact invoiceAccountAux inner e ctx l hl

/-- `AllRules` case of `invoiceAccountAux`. -/
theorem invoiceAllAccountAux : ∀ (rs : List Rule) (e : Event) (ctx : BillingContext),
    ∀ l ∈ (invoiceAll rs e ctx).1,
      l.account_id = eventAccountId e ∧
      l.account_id = eventAccountId l.source_event
  | [], e, ctx => by
    intro l hl
    simp [invoiceAll] at hl
  | r :: rs, e, ctx => by
    intro l hl
    simp only [invoiceAll, List.mem_append] at hl
    rcases hl with h | h
    · exact invoiceAccountAux r e ctx l h
    · exact invoiceAllAccountAux rs e (Rule.invoice r e ctx).2 l h

/-- `FirstRule` case of `invoiceAccountAux`. -/
theorem invoiceFirstAccountAux : ∀ (rs : List Rule) (e : Event) (ctx : BillingContext),
    ∀ l ∈ (invoiceFirst rs e ctx).1,
      l.account_id = eventAccountId e ∧
      l.account_id = eventAccountId l.source_event
  | [], e, ctx => by
    intro l hl
    simp [invoiceFirst] at hl
  | r :: rs, e, ctx => by
    intro l hl
    simp only [invoiceFirst] at hl
    by_cases h : (Rule.invoice r e ctx).1.isEmpty
    · rw [if_pos h] at hl
      exact invoiceFirstAccountAux rs e (Rule.invoice r e ctx).2 l hl
    · rw [if_neg h] at hl
      exact invoiceAccountAux r e ctx l hl

end

/-- Every line collected by the engine pass carries its source event's
account id. -/
theorem eventsToLines_fields (rules : List Rule) (noInv : List String) :
    ∀ (events : List Event) (ctx : BillingContext),
      ∀ l ∈ (eventsToLines events rules noInv ctx).1,
        l.account_id = eventAccountId l.source_event := by
  intro events
  induction events with
  | nil => intro ctx l hl; simp [eventsToLines] at hl
  | cons e es ih =>
    intro ctx l hl
    simp only [eventsToLines] at hl
    split_ifs at hl with h
    · exact ih ctx l hl
    · simp only [List.mem_append] at hl
      rcases hl with h1 | h1
      · exact (invoiceAllAccountAux rules e ctx l h1).2
      · exact ih _ l h1

/-- C10: every line emitted by any rule (leaf or wrapper) carries the
triggering event's account id — which is also the account id of the line's
own source event — and consequently every invoice assembled from an engine
pass contains only lines whose account id is the invoice's account id and
whose source event belongs to that same account. -/
theorem c10_lines_inherit_source_account :
    (∀ (r : Rule) (e : Event) (ctx : BillingContext),
      ∀ l ∈ (Rule.invoice r e ctx).1,
        l.account_id = eventAccountId e ∧
        l.account_id = eventAccountId l.source_event) ∧
    (∀ (events : List Event) (rules : List Rule) (noInv : List String)
        (ctx : BillingContext) (d : Nat),
      ∀ inv ∈ linesToInvoices (eventsToLines events rules noInv ctx).1 d,
        ∀ l ∈ inv.lines,
          l.account_id = inv.account_id ∧
          inv.account_id = eventAccountId l.source_event) := by
  constructor
  · exact invoiceAccountAux
  · intro events rules noInv ctx d inv hinv l hl
    simp only [linesToInvoices, List.mem_map, List.mem_mergeSort,
      List.mem_dedup] at hinv
    obtain ⟨a, _, rfl⟩ := hinv
    simp only [List.mem_mergeSort, List.mem_filter] at hl
    have haccount : l.account_id = a := of_decide_eq_true hl.2
    have hsrc := eventsToLines_fields rules noInv events ctx l hl.1
    exact ⟨haccount, by rw [← haccount]; exact hsrc⟩

/-- Line produced by `SimpleRule` from `sampleEvent` for the C10 witness. -/
def w10line : AccountEntry := ⟨"a", 1, "x", 0, sampleEvent, none, none, false⟩

/-- Witness for `c10_lines_inherit_source_account`: the line `SimpleRule([])`
emits for `sampleEvent` carries the event's account. -/
theorem c10_lines_inherit_source_account_witness :
    w10line.account_id = eventAccountId sampleEvent ∧
    w10line.account_id = eventAccountId w10line.source_event :=
  c10_lines_inherit_source_account.1 (.simpleR []) sampleEvent emptyContext w10line
    (by simp [Rule.invoice, simpleRuleInvoice, sampleEvent, w10line])
